import Mathlib

/-!
Shallow embedding of the grubby VM core (interpreter/vm/vm.go) and of the
call-stack / builtin-value contract it depends on, with theorems checking
the specification's claims about the evaluator, the loader (`require`),
symbol interning, the call stack, and error handling.

The Go code mutates a `vm` struct through pointer receivers; here the state
is threaded explicitly (`VMState`).  Go's `nil` interface values are
modelled by `Option Value`; Go run-time panics (failed type assertions,
out-of-range indexing, unhandled node kinds) are modelled by the
`Res.panicked` outcome; recursion is made total with a fuel parameter
(`Res.fuelOut` marks exhaustion and corresponds to no real behaviour).
-/

/-- Runtime values (the builtins package is outside the provided sources;
its values are modelled from the spec's capability contract: every value
has a string form and a class, error values are ordinary values).
`symbolVal` carries an allocation id modelling Go pointer identity of
`builtins.NewSymbol` results. -/
inductive Value where
  | str (s : String)
  | intVal (i : Int)
  | floatVal (r : String)
  | boolVal (b : Bool)
  | nilVal
  | symbolVal (name : String) (id : Nat)
  | arrayVal (elems : List Value)
  | methodVal (name : String)
  | classVal (name : String)
  | mainObj
  | nameError (name target cls backtrace : String)
  | noMethodError (name target cls backtrace : String)
  | loadError (msg backtrace : String)
deriving Repr

/-- Modelled from the spec: the `String()` form of builtin values (the
builtins package is not among the provided sources; the spec only requires
that every value reports a string form, and that error values have a
string form that rescue clauses compare against a class name). -/
def Value.toS : Value → String
  | .str s => s
  | .intVal i => toString i
  | .floatVal r => r
  | .boolVal b => if b then "true" else "false"
  | .nilVal => "nil"
  | .symbolVal n _ => n
  | .arrayVal _ => "[array]"
  | .methodVal n => n
  | .classVal n => n
  | .mainObj => "main"
  | .nameError n _ _ _ => "NameError: " ++ n
  | .noMethodError n _ _ _ => "NoMethodError: " ++ n
  | .loadError msg _ => msg

/-- Modelled from the spec: the `Class().String()` form of builtin values
(the builtins package is not among the provided sources; the spec only
requires that every value reports the class it is an instance of). -/
def Value.classNameOf : Value → String
  | .str _ => "String"
  | .intVal _ => "Integer"
  | .floatVal _ => "Float"
  | .boolVal b => if b then "TrueClass" else "FalseClass"
  | .nilVal => "NilClass"
  | .symbolVal _ _ => "Symbol"
  | .arrayVal _ => "Array"
  | .methodVal _ => "Method"
  | .classVal _ => "Class"
  | .mainObj => "Object"
  | .nameError _ _ _ _ => "NameError"
  | .noMethodError _ _ _ _ => "NoMethodError"
  | .loadError _ _ => "LoadError"

/-- The evaluator's error channel: either a builtins error value
(NameError, NoMethodError, LoadError, ...) or the `*ParseError` returned by
`Run` on parser failure (which is a Go `error` but not a `builtins.Value`). -/
inductive EvalError where
  | rubyErr (v : Value)
  | parseError (filename : String)
deriving Repr

/-- Syntax-tree nodes (the `ast` package vocabulary consumed by
`executeWithContext`); `rescueNode` is `ast.Rescue` with its
`Exception.Class.Name` field, `unhandled` stands for every node kind the
evaluator's `default` case panics on. -/
inductive Node where
  | ifBlock (condition : Node) (body elseBody : List Node)
  | funcDecl (name : String)
  | simpleString (value : String)
  | interpString (value : String)
  | boolean (value : Bool)
  | globalVariable (name : String)
  | constantInt (value : Int)
  | constantFloat (r : String)
  | symbol (name : String)
  | bareReference (name : String)
  | callExpression (target : Option Node) (funcName : String) (args : List Node)
  | assignment (lhs rhs : Node)
  | fileNameConst
  | beginBlock (body : List Node) (rescues : List Node)
  | rescueNode (className : String) (body : List Node)
  | unhandled (desc : String)
deriving Repr

/-- What the file system holds at a path: `readError` is a file that
`os.Open` accepts but `ioutil.ReadAll` fails on; `source` is a readable
file whose contents the (external) parser turns into a statement list, or
rejects (`Except.error ()`). -/
inductive FileEntry where
  | readError
  | source (parsed : Except Unit (List Node))
deriving Repr

/-- File-system model for `require`: an association of full paths to
entries; a path not listed fails to open (and is silently skipped). -/
abbrev FS := List (String × FileEntry)

def lookupAssoc {α : Type} : List (String × α) → String → Option α
  | [], _ => none
  | (k, v) :: rest, key => if k = key then some v else lookupAssoc rest key

/-- The `vm` struct's mutable state.  Go maps from name to
`builtins.Value` can hold nil interface values (assignments store the
evaluator's possibly-nil result), hence `Option Value` entries for the
object space and globals.  `loadPath` is the member list of the Array
object captured by the `require` closure; `stack` is the CallStack's frame
list (most recent first); `symCounter` supplies fresh identities for
`NewSymbol` allocations; `output` collects what `puts` writes to stdout. -/
structure VMState where
  currentFilename : String
  objectSpace : List (String × Option Value)
  globals : List (String × Option Value)
  symbols : List (String × Value)
  kernelMethods : List String
  loadPath : List Value
  stack : List String
  symCounter : Nat
  output : List String
deriving Repr

/-- Modelled from the spec: the CallStack component (its source file is not
among the provided sources).  Push (`Unshift`) prepends, pop (`Shift`)
removes the front, and `String()` renders the frames innermost first. -/
def renderStack (frames : List String) : String :=
  String.intercalate "," frames

/-- Modelled from Go's `filepath.Join` (standard library, external
collaborator) restricted to the clean directory strings the claims use. -/
def joinPath (dir file : String) : String :=
  dir ++ "/" ++ file

/-- Result of an evaluation step: a value, a Go runtime panic (failed type
assertion, out-of-range index, unhandled node), or fuel exhaustion (an
artefact of the embedding, corresponding to no real behaviour). -/
inductive Res (α : Type) where
  | ok (v : α)
  | panicked (msg : String)
  | fuelOut
deriving Repr

/-- `executeWithContext`'s outcome: the threaded state, `returnValue` and
`returnErr` (both nilable in Go). -/
abbrev EvalResult := VMState × Option Value × Option EvalError

/-- Drop the call-stack frames popped by the `defer vm.stack.Shift()` calls
accumulated by one `executeWithContext` activation when it returns. -/
def popFrames (st : VMState) (n : Nat) : VMState :=
  { st with stack := st.stack.drop n }

/-- Modelled from the spec: `target.Method(name)` lookup on the values the
provided sources install methods on (the builtins package is not among
them).  The top-level `main` object receives `to_s`, `require` and `puts`
in `NewVM`; lookup on other values fails (returns `none`), which the
evaluator turns into a NameError. -/
def methodLookup (target : Value) (name : String) : Option String :=
  match target with
  | .mainObj => if name = "to_s" ∨ name = "require" ∨ name = "puts" then some name else none
  | _ => none

/-- The `puts` builtin: writes each argument's string form plus a newline
to stdout; a nil argument makes `arg.String()` panic. -/
def putsImpl : List (Option Value) → VMState → Res EvalResult
  | [], st => .ok (st, none, none)
  | none :: _, _ => .panicked "invalid memory address or nil pointer dereference"
  | some v :: more, st => putsImpl more { st with output := st.output ++ [v.toS ++ "\n"] }

/-- Argument-evaluation outcome for a call expression: all arguments
evaluated (in caller scope, left to right), or an argument failed and the
call returns that error immediately. -/
inductive ArgsRes where
  | done (st : VMState) (args : List (Option Value))
  | failed (st : VMState) (e : EvalError)

mutual

/-- The statement loop of `executeWithContext` (vm.go lines 187-344):
`rv`/`re` are the threaded `returnValue`/`returnErr`, `pushed` counts the
call-stack frames this activation has pushed (each with a deferred
`Shift`), which are dropped at every exit point. -/
def execLoop : Nat → FS → Option Value → List Node → VMState →
    Option Value → Option EvalError → Nat → Res EvalResult
  | 0, _, _, _, _, _, _, _ => .fuelOut
  | Nat.succ _, _, _, [], st, rv, re, pushed => .ok (popFrames st pushed, rv, re)
  | Nat.succ fuel, fs, context, stmt :: rest, st, rv, re, pushed =>
    match stmt with
    | .ifBlock cond body elseBody =>
      let truthy : Bool :=
        match cond with
        | .boolean b => b
        | .bareReference n => n = "nil"
        | _ => true
      match execLoop fuel fs context (if truthy then body else elseBody) st none none 0 with
      | .panicked m => .panicked m
      | .fuelOut => .fuelOut
      | .ok (st1, rv1, re1) => execLoop fuel fs context rest st1 rv1 re1 pushed
    | .funcDecl name =>
      execLoop fuel fs context rest
        { st with kernelMethods := name :: st.kernelMethods }
        (some (.methodVal name)) re pushed
    | .simpleString v =>
      execLoop fuel fs context rest st (some (.str v)) re pushed
    | .interpString v =>
      execLoop fuel fs context rest st (some (.str v)) re pushed
    | .boolean b =>
      execLoop fuel fs context rest st (some (.boolVal b)) re pushed
    | .globalVariable name =>
      execLoop fuel fs context rest st ((lookupAssoc st.globals name).join) re pushed
    | .constantInt i =>
      execLoop fuel fs context rest st (some (.intVal i)) re pushed
    | .constantFloat r =>
      execLoop fuel fs context rest st (some (.floatVal r)) re pushed
    | .symbol name =>
      match lookupAssoc st.symbols name with
      | some v => execLoop fuel fs context rest st (some v) re pushed
      | none =>
        let v := Value.symbolVal name st.symCounter
        execLoop fuel fs context rest
          { st with symbols := (name, v) :: st.symbols, symCounter := st.symCounter + 1 }
          (some v) re pushed
    | .bareReference name =>
      match lookupAssoc st.objectSpace name with
      | some v => execLoop fuel fs context rest st v re pushed
      | none =>
        match context with
        | none => .panicked "invalid memory address or nil pointer dereference"
        | some ctx =>
          execLoop fuel fs context rest st rv
            (some (.rubyErr (.nameError name ctx.toS ctx.classNameOf (renderStack st.stack))))
            pushed
    | .callExpression tgt funcName argNodes =>
      match tgt with
      | some tnode =>
        match execLoop fuel fs context [tnode] st none none 0 with
        | .panicked m => .panicked m
        | .fuelOut => .fuelOut
        | .ok (st1, _tv, some e) => .ok (popFrames st1 pushed, none, some e)
        | .ok (st1, targetV, none) =>
          finishCall fuel fs context rest st1 targetV funcName argNodes pushed
      | none => finishCall fuel fs context rest st context funcName argNodes pushed
    | .assignment lhs rhsNode =>
      match execLoop fuel fs context [rhsNode] st none none 0 with
      | .panicked m => .panicked m
      | .fuelOut => .fuelOut
      | .ok (st1, _rhsE, some e) => .ok (popFrames st1 pushed, none, some e)
      | .ok (st1, rhsV, none) =>
        match lhs with
        | .bareReference n =>
          execLoop fuel fs context rest
            { st1 with objectSpace := (n, rhsV) :: st1.objectSpace } rv re pushed
        | .globalVariable n =>
          execLoop fuel fs context rest
            { st1 with globals := (n, rhsV) :: st1.globals } rv re pushed
        | _ => .panicked "unimplemented assignment failure"
    | .fileNameConst =>
      execLoop fuel fs context rest st (some (.str st.currentFilename)) re pushed
    | .beginBlock body rescues =>
      match execLoop fuel fs context body st none none 0 with
      | .panicked m => .panicked m
      | .fuelOut => .fuelOut
      | .ok (st1, _bv, none) => execLoop fuel fs context rest st1 rv re pushed
      | .ok (_st1, _bv, some (.parseError _pf)) => .panicked "interface conversion"
      | .ok (st1, _bv, some (.rubyErr ev)) =>
        match rescueLoop fuel fs context rescues ev (some (.rubyErr ev)) st1 with
        | .panicked m => .panicked m
        | .fuelOut => .fuelOut
        | .ok (st2, none) => execLoop fuel fs context rest st2 rv re pushed
        | .ok (st2, some e2) => execLoop fuel fs context rest st2 rv (some e2) pushed
    | .rescueNode _ _ => .panicked "handled unknown statement type"
    | .unhandled _ => .panicked "handled unknown statement type"
termination_by structural fuel => fuel

/-- The second half of the `ast.CallExpression` case, once the receiver is
known: a nil receiver fails with NoMethodError, a failed method lookup
with NameError; otherwise the arguments are evaluated in the caller's
context, a frame named after the resolved method is pushed (with a
deferred pop, counted in `pushed`), the method executes, an error returns
immediately, and a success continues with the remaining statements. -/
def finishCall : Nat → FS → Option Value → List Node → VMState →
    Option Value → String → List Node → Nat → Res EvalResult
  | 0, _, _, _, _, _, _, _, _ => .fuelOut
  | Nat.succ fuel, fs, context, rest, st1, targetV, funcName, argNodes, pushed =>
    match targetV with
    | none =>
      .ok (popFrames st1 pushed, none,
        some (.rubyErr (.noMethodError funcName Value.nilVal.toS
          Value.nilVal.classNameOf (renderStack st1.stack))))
    | some tv =>
      match methodLookup tv funcName with
      | none =>
        .ok (popFrames st1 pushed, none,
          some (.rubyErr (.nameError funcName tv.toS tv.classNameOf
            (renderStack st1.stack))))
      | some mname =>
        match evalArgs fuel fs context argNodes st1 [] with
        | .panicked m => .panicked m
        | .fuelOut => .fuelOut
        | .ok (.failed st2 e) => .ok (popFrames st2 pushed, none, some e)
        | .ok (.done st2 argVals) =>
          match execMethod fuel fs tv mname argVals
              { st2 with stack := mname :: st2.stack } with
          | .panicked m => .panicked m
          | .fuelOut => .fuelOut
          | .ok (st4, mrv, some e) => .ok (popFrames st4 (pushed + 1), mrv, some e)
          | .ok (st4, mrv, none) =>
            execLoop fuel fs context rest st4 mrv none (pushed + 1)
termination_by structural fuel => fuel

/-- The rescue-clause loop of the `ast.Begin` case: `origErr` is the
`rubyErr` value fixed before the loop, `curErr` the running `err`; a
clause matches when its declared class name equals `origErr`'s string
form; a matching clause whose body succeeds breaks out with no error. -/
def rescueLoop : Nat → FS → Option Value → List Node → Value →
    Option EvalError → VMState → Res (VMState × Option EvalError)
  | 0, _, _, _, _, _, _ => .fuelOut
  | Nat.succ _, _, _, [], _, curErr, st => .ok (st, curErr)
  | Nat.succ fuel, fs, context, rc :: more, origErr, curErr, st =>
    match rc with
    | .rescueNode className body =>
      if className = origErr.toS then
        match execLoop fuel fs context body st none none 0 with
        | .panicked m => .panicked m
        | .fuelOut => .fuelOut
        | .ok (st1, _rbv, none) => .ok (st1, none)
        | .ok (st1, _rbv, some e2) => rescueLoop fuel fs context more origErr (some e2) st1
      else rescueLoop fuel fs context more origErr curErr st
    | _ => .panicked "interface conversion"
termination_by structural fuel => fuel

/-- Argument evaluation for a call expression: each argument is evaluated
against the caller's context; the first failure returns immediately. -/
def evalArgs : Nat → FS → Option Value → List Node → VMState →
    List (Option Value) → Res ArgsRes
  | 0, _, _, _, _, _ => .fuelOut
  | Nat.succ _, _, _, [], st, acc => .ok (.done st acc.reverse)
  | Nat.succ fuel, fs, context, a :: more, st, acc =>
    match execLoop fuel fs context [a] st none none 0 with
    | .panicked m => .panicked m
    | .fuelOut => .fuelOut
    | .ok (st1, _av, some e) => .ok (.failed st1 e)
    | .ok (st1, av, none) => evalArgs fuel fs context more st1 (av :: acc)
termination_by structural fuel => fuel

/-- `method.Execute` for the methods the provided sources install: `to_s`
and `puts` from `NewVM`, `require` (the loader closure), and the no-op
stubs a `FuncDecl` installs; other names are unreachable under
`methodLookup`. -/
def execMethod : Nat → FS → Value → String → List (Option Value) →
    VMState → Res EvalResult
  | 0, _, _, _, _, _ => .fuelOut
  | Nat.succ fuel, fs, tv, mname, args, st =>
    match tv, mname with
    | .mainObj, "to_s" => .ok (st, some (.str "main"), none)
    | .mainObj, "puts" => putsImpl args st
    | .mainObj, "require" => requireImpl fuel fs st args
    | _, _ => .ok (st, none, none)
termination_by structural fuel => fuel

/-- The `require` closure (vm.go lines 61-92): takes `args[0]`, asserts it
to a string (panicking on an empty argument list or a non-string first
argument), special-cases "rubygems", and otherwise searches the load
path. -/
def requireImpl : Nat → FS → VMState → List (Option Value) → Res EvalResult
  | 0, _, _, _ => .fuelOut
  | Nat.succ fuel, fs, st, args =>
    match args with
    | [] => .panicked "index out of range"
    | some (.str fileName) :: _ =>
      if fileName = "rubygems" then .ok (st, some (.boolVal false), none)
      else requireSearch fuel fs st fileName st.loadPath
    | _ => .panicked "interface conversion"
termination_by structural fuel => fuel

/-- The load-path loop of `require`: each member is asserted to a string
(panicking otherwise); a path that fails to open is skipped, a path that
opens but fails to read is also skipped (the loop just continues); a
readable file sets the current unit name to its full path, re-enters
`Run`, restores the name (deferred) and returns True plus the nested
run's error; an exhausted path yields a LoadError. -/
def requireSearch : Nat → FS → VMState → String → List Value → Res EvalResult
  | 0, _, _, _, _ => .fuelOut
  | Nat.succ _, _, st, fileName, [] =>
    .ok (st, none, some (.rubyErr (.loadError
      ("LoadError: cannot load such file -- " ++ fileName) (renderStack st.stack))))
  | Nat.succ fuel, fs, st, fileName, member :: restPath =>
    match member with
    | .str dir =>
      let fullPath := joinPath dir (fileName ++ ".rb")
      match lookupAssoc fs fullPath with
      | none => requireSearch fuel fs st fileName restPath
      | some .readError => requireSearch fuel fs st fileName restPath
      | some (.source parsed) =>
        match runTop fuel fs { st with currentFilename := fullPath } parsed with
        | .panicked m => .panicked m
        | .fuelOut => .fuelOut
        | .ok (st2, _nv, rerr) =>
          .ok ({ st2 with currentFilename := st.currentFilename },
               some (.boolVal true), rerr)
    | _ => .panicked "interface conversion"
termination_by structural fuel => fuel

/-- `Run` (vm.go lines 173-185): on parser failure returns a ParseError
tagged with the current unit name; otherwise pushes a "main" frame, looks
up the top-level receiver in the object space, evaluates the statements,
and pops the frame (deferred) on the way out. -/
def runTop : Nat → FS → VMState → Except Unit (List Node) → Res EvalResult
  | 0, _, _, _ => .fuelOut
  | Nat.succ _, _, st, .error _ => .ok (st, none, some (.parseError st.currentFilename))
  | Nat.succ fuel, fs, st, .ok stmts =>
    match execLoop fuel fs ((lookupAssoc st.objectSpace "main").join) stmts
        { st with stack := "main" :: st.stack } none none 0 with
    | .panicked m => .panicked m
    | .fuelOut => .fuelOut
    | .ok (st2, rv, re) => .ok ({ st2 with stack := st2.stack.tail }, rv, re)
termination_by structural fuel => fuel

end

/-- `executeWithContext` proper: a fresh activation of the statement loop
with nil `returnValue`/`returnErr` and no frames pushed yet. -/
def executeWithContext (fuel : Nat) (fs : FS) (statements : List Node)
    (context : Option Value) (st : VMState) : Res EvalResult :=
  execLoop fuel fs context statements st none none 0

/-- `NewVM` (vm.go lines 37-104): the initial state, with the load path
empty, the object space seeded with Object, Kernel, File, ARGV and main,
and the globals holding the load-path array under both names. -/
def newVM (name : String) : VMState :=
  { currentFilename := name
    objectSpace := [("Object", some (.classVal "Object")),
                    ("Kernel", some (.classVal "Kernel")),
                    ("File", some (.classVal "File")),
                    ("ARGV", some (.arrayVal [])),
                    ("main", some .mainObj)]
    globals := [("LOAD_PATH", some (.arrayVal [])), (":", some (.arrayVal []))]
    symbols := []
    kernelMethods := []
    loadPath := []
    stack := []
    symCounter := 0
    output := [] }

/-- A rescue clause that the `ast.Begin` loop passes over for the failing
error value `ev`: a `rescueNode` whose declared class name differs from
`ev`'s string form.  (A non-rescue node would make the Go type assertion
panic, so it never counts as skippable.) -/
def NonMatchingClause (ev : Value) : Node → Prop
  | .rescueNode cn _ => cn ≠ ev.toS
  | _ => False

/-- A load-path member that the `require` search loop passes over for unit
`fileName`: a string directory whose joined path either fails to open or
opens but fails to read. -/
def SkippedDir (fs : FS) (fileName : String) (m : Value) : Prop :=
  ∃ d, m = .str d ∧
    (lookupAssoc fs (joinPath d (fileName ++ ".rb")) = none ∨
     lookupAssoc fs (joinPath d (fileName ++ ".rb")) = some .readError)

/-- Well-formedness of the symbol interning table: every cached entry for
name `n` is a Symbol value spelled `n`. -/
def SymTableWF (st : VMState) : Prop :=
  ∀ n v, lookupAssoc st.symbols n = some v → ∃ i, v = Value.symbolVal n i

/-- The balance facts threaded through one fuel level: every `.ok` result
of every evaluator function leaves the call stack as it found it, except
that `execLoop` and `finishCall` drop the frames their activation
pushed. -/
def StackOK (fuel : Nat) : Prop :=
  (∀ fs ctx stmts st rv re pushed st' v e,
     execLoop fuel fs ctx stmts st rv re pushed = .ok (st', v, e) →
       st'.stack = st.stack.drop pushed) ∧
  (∀ fs ctx rest st1 targetV funcName argNodes pushed st' v e,
     finishCall fuel fs ctx rest st1 targetV funcName argNodes pushed = .ok (st', v, e) →
       st'.stack = st1.stack.drop pushed) ∧
  (∀ fs ctx rescues origErr curErr st st' e,
     rescueLoop fuel fs ctx rescues origErr curErr st = .ok (st', e) →
       st'.stack = st.stack) ∧
  (∀ fs ctx argNodes st acc st' args,
     evalArgs fuel fs ctx argNodes st acc = .ok (.done st' args) →
       st'.stack = st.stack) ∧
  (∀ fs ctx argNodes st acc st' e,
     evalArgs fuel fs ctx argNodes st acc = .ok (.failed st' e) →
       st'.stack = st.stack) ∧
  (∀ fs tv mname args st st' v e,
     execMethod fuel fs tv mname args st = .ok (st', v, e) →
       st'.stack = st.stack) ∧
  (∀ fs st args st' v e,
     requireImpl fuel fs st args = .ok (st', v, e) → st'.stack = st.stack) ∧
  (∀ fs st name path st' v e,
     requireSearch fuel fs st name path = .ok (st', v, e) → st'.stack = st.stack) ∧
  (∀ fs st inp st' v e,
     runTop fuel fs st inp = .ok (st', v, e) → st'.stack = st.stack)

lemma putsImpl_stack : ∀ args st st' v e,
    putsImpl args st = .ok (st', v, e) → st'.stack = st.stack := by
  intro args
  induction args with
  | nil =>
    intro st st' v e h
    simp only [putsImpl, Res.ok.injEq, Prod.mk.injEq] at h
    rw [← h.1]
  | cons a more ih =>
    intro st st' v e h
    cases a with
    | none => exact Res.noConfusion h
    | some w =>
      have h2 := ih _ _ _ _ h
      exact h2

set_option maxHeartbeats 2000000 in

theorem stackOK : ∀ fuel, StackOK fuel := by
  intro fuel
  induction fuel with
  | zero =>
    refine ⟨?_, ?_, ?_, ?_, ?_, ?_, ?_, ?_, ?_⟩ <;>
      · intros
        rename_i h
        exact Res.noConfusion h
  | succ fuel ih =>
    obtain ⟨ihL, ihF, ihR, ihAd, ihAf, ihM, ihRI, ihRS, ihRT⟩ := ih
    refine ⟨?_, ?_, ?_, ?_, ?_, ?_, ?_, ?_, ?_⟩
    · -- execLoop
      intro fs ctx stmts st rv re pushed st' v e h
      cases stmts with
      | nil =>
        simp only [execLoop, Res.ok.injEq, Prod.mk.injEq] at h
        rw [← h.1]
        rfl
      | cons stmt rest =>
        cases stmt with
        | ifBlock cond body elseBody =>
          simp only [execLoop] at h
          split at h <;>
            first
            | exact Res.noConfusion h
            | · rename_i st1 rv1 re1 heq
                have h1 := ihL _ _ _ _ _ _ _ _ _ _ heq
                rw [List.drop_zero] at h1
                have h2 := ihL _ _ _ _ _ _ _ _ _ _ h
                rw [h2, h1]
        | funcDecl name =>
          simp only [execLoop] at h
          have h2 := ihL _ _ _ _ _ _ _ _ _ _ h
          exact h2
        | simpleString s =>
          simp only [execLoop] at h
          have h2 := ihL _ _ _ _ _ _ _ _ _ _ h
          exact h2
        | interpString s =>
          simp only [execLoop] at h
          have h2 := ihL _ _ _ _ _ _ _ _ _ _ h
          exact h2
        | boolean b =>
          simp only [execLoop] at h
          have h2 := ihL _ _ _ _ _ _ _ _ _ _ h
          exact h2
        | globalVariable n =>
          simp only [execLoop] at h
          have h2 := ihL _ _ _ _ _ _ _ _ _ _ h
          exact h2
        | constantInt i =>
          simp only [execLoop] at h
          have h2 := ihL _ _ _ _ _ _ _ _ _ _ h
          exact h2
        | constantFloat r =>
          simp only [execLoop] at h
          have h2 := ihL _ _ _ _ _ _ _ _ _ _ h
          exact h2
        | symbol n =>
          simp only [execLoop] at h
          split at h <;>
            · have h2 := ihL _ _ _ _ _ _ _ _ _ _ h
              exact h2
        | bareReference n =>
          simp only [execLoop] at h
          split at h
          · have h2 := ihL _ _ _ _ _ _ _ _ _ _ h
            exact h2
          · split at h
            · exact Res.noConfusion h
            · have h2 := ihL _ _ _ _ _ _ _ _ _ _ h
              exact h2
        | fileNameConst =>
          simp only [execLoop] at h
          have h2 := ihL _ _ _ _ _ _ _ _ _ _ h
          exact h2
        | callExpression tgt funcName argNodes =>
          cases tgt with
          | none =>
            simp only [execLoop] at h
            have h2 := ihF _ _ _ _ _ _ _ _ _ _ _ h
            exact h2
          | some tnode =>
            simp only [execLoop] at h
            split at h
            · exact Res.noConfusion h
            · exact Res.noConfusion h
            · rename_i st1 tv1 e1 heq
              simp only [Res.ok.injEq, Prod.mk.injEq] at h
              rw [← h.1]
              have h1 := ihL _ _ _ _ _ _ _ _ _ _ heq
              rw [List.drop_zero] at h1
              simp only [popFrames]
              rw [h1]
            · rename_i st1 targetV heq
              have h1 := ihL _ _ _ _ _ _ _ _ _ _ heq
              rw [List.drop_zero] at h1
              have h2 := ihF _ _ _ _ _ _ _ _ _ _ _ h
              rw [h2, h1]
        | assignment lhs rhsNode =>
          simp only [execLoop] at h
          split at h
          · exact Res.noConfusion h
          · exact Res.noConfusion h
          · rename_i st1 e1 heq
            simp only [Res.ok.injEq, Prod.mk.injEq] at h
            rw [← h.1]
            have h1 := ihL _ _ _ _ _ _ _ _ _ _ heq
            rw [List.drop_zero] at h1
            simp only [popFrames]
            rw [h1]
          · rename_i st1 rhsV heq
            have h1 := ihL _ _ _ _ _ _ _ _ _ _ heq
            rw [List.drop_zero] at h1
            cases lhs <;>
              first
              | exact Res.noConfusion h
              | · have h2 := ihL _ _ _ _ _ _ _ _ _ _ h
                  rw [h2]
                  exact congrArg (List.drop pushed) h1
        | beginBlock body rescues =>
          simp only [execLoop] at h
          split at h
          · exact Res.noConfusion h
          · exact Res.noConfusion h
          · rename_i st1 bv heq
            have h1 := ihL _ _ _ _ _ _ _ _ _ _ heq
            rw [List.drop_zero] at h1
            have h2 := ihL _ _ _ _ _ _ _ _ _ _ h
            rw [h2]
            exact congrArg (List.drop pushed) h1
          · exact Res.noConfusion h
          · rename_i st1 bv ev heq
            have h1 := ihL _ _ _ _ _ _ _ _ _ _ heq
            rw [List.drop_zero] at h1
            split at h
            · exact Res.noConfusion h
            · exact Res.noConfusion h
            · rename_i st2 heq2
              have h2 := ihR _ _ _ _ _ _ _ _ heq2
              have h3 := ihL _ _ _ _ _ _ _ _ _ _ h
              rw [h3, h2]
              exact congrArg (List.drop pushed) h1
            · rename_i st2 e2 heq2
              have h2 := ihR _ _ _ _ _ _ _ _ heq2
              have h3 := ihL _ _ _ _ _ _ _ _ _ _ h
              rw [h3, h2]
              exact congrArg (List.drop pushed) h1
        | rescueNode cn body =>
          simp only [execLoop] at h
          exact Res.noConfusion h
        | unhandled d =>
          simp only [execLoop] at h
          exact Res.noConfusion h
    · -- finishCall
      intro fs ctx rest st1 targetV funcName argNodes pushed st' v e h
      cases targetV with
      | none =>
        simp only [finishCall, Res.ok.injEq, Prod.mk.injEq] at h
        rw [← h.1]
        rfl
      | some tv =>
        simp only [finishCall] at h
        split at h
        · simp only [Res.ok.injEq, Prod.mk.injEq] at h
          rw [← h.1]
          rfl
        · rename_i mname hml
          split at h
          · exact Res.noConfusion h
          · exact Res.noConfusion h
          · rename_i st2 e2 heq
            simp only [Res.ok.injEq, Prod.mk.injEq] at h
            rw [← h.1]
            have hA := ihAf _ _ _ _ _ _ _ heq
            simp only [popFrames]
            rw [hA]
          · rename_i st2 argVals heq
            have hA := ihAd _ _ _ _ _ _ _ heq
            split at h
            · exact Res.noConfusion h
            · exact Res.noConfusion h
            · rename_i st4 mrv e4 heqM
              simp only [Res.ok.injEq, Prod.mk.injEq] at h
              rw [← h.1]
              have hM := ihM _ _ _ _ _ _ _ _ heqM
              simp only [popFrames]
              rw [hM]
              show (mname :: st2.stack).drop (pushed + 1) = st1.stack.drop pushed
              rw [List.drop_succ_cons, hA]
            · rename_i st4 mrv heqM
              have hM := ihM _ _ _ _ _ _ _ _ heqM
              have h3 := ihL _ _ _ _ _ _ _ _ _ _ h
              rw [h3, hM]
              show (mname :: st2.stack).drop (pushed + 1) = st1.stack.drop pushed
              rw [List.drop_succ_cons, hA]
    · -- rescueLoop
      intro fs ctx rescues origErr curErr st st' e h
      cases rescues with
      | nil =>
        simp only [rescueLoop, Res.ok.injEq, Prod.mk.injEq] at h
        rw [← h.1]
      | cons rc more =>
        cases rc <;>
          first
          | (simp only [rescueLoop] at h; exact Res.noConfusion h)
          | skip
        rename_i cn body
        simp only [rescueLoop] at h
        split at h
        · split at h
          · exact Res.noConfusion h
          · exact Res.noConfusion h
          · rename_i st1 heq
            simp only [Res.ok.injEq, Prod.mk.injEq] at h
            rw [← h.1]
            have h1 := ihL _ _ _ _ _ _ _ _ _ _ heq
            rw [List.drop_zero] at h1
            exact h1
          · rename_i st1 e2 heq
            have h1 := ihL _ _ _ _ _ _ _ _ _ _ heq
            rw [List.drop_zero] at h1
            have h2 := ihR _ _ _ _ _ _ _ _ h
            rw [h2, h1]
        · exact ihR _ _ _ _ _ _ _ _ h
    · -- evalArgs done
      intro fs ctx argNodes st acc st' args h
      cases argNodes with
      | nil =>
        simp only [evalArgs, Res.ok.injEq, ArgsRes.done.injEq] at h
        rw [← h.1]
      | cons a more =>
        simp only [evalArgs] at h
        split at h
        · exact Res.noConfusion h
        · exact Res.noConfusion h
        · simp only [Res.ok.injEq] at h
          exact ArgsRes.noConfusion h
        · rename_i st1 av heq
          have h1 := ihL _ _ _ _ _ _ _ _ _ _ heq
          rw [List.drop_zero] at h1
          have h2 := ihAd _ _ _ _ _ _ _ h
          rw [h2, h1]
    · -- evalArgs failed
      intro fs ctx argNodes st acc st' e h
      cases argNodes with
      | nil =>
        simp only [evalArgs, Res.ok.injEq] at h
        exact ArgsRes.noConfusion h
      | cons a more =>
        simp only [evalArgs] at h
        split at h
        · exact Res.noConfusion h
        · exact Res.noConfusion h
        · rename_i st1 e1 heq
          simp only [Res.ok.injEq, ArgsRes.failed.injEq] at h
          rw [← h.1]
          have h1 := ihL _ _ _ _ _ _ _ _ _ _ heq
          rw [List.drop_zero] at h1
          exact h1
        · rename_i st1 av heq
          have h1 := ihL _ _ _ _ _ _ _ _ _ _ heq
          rw [List.drop_zero] at h1
          have h2 := ihAf _ _ _ _ _ _ _ h
          rw [h2, h1]
    · -- execMethod
      intro fs tv mname args st st' v e h
      cases tv <;>
        first
        | (simp only [execMethod, Res.ok.injEq, Prod.mk.injEq] at h; rw [← h.1])
        | skip
      simp only [execMethod] at h
      split at h
      · simp only [Res.ok.injEq, Prod.mk.injEq] at h
        rw [← h.1]
      · exact putsImpl_stack _ _ _ _ _ h
      · exact ihRI _ _ _ _ _ _ h
      · simp only [Res.ok.injEq, Prod.mk.injEq] at h
        rw [← h.1]
    · -- requireImpl
      intro fs st args st' v e h
      cases args with
      | nil =>
        simp only [requireImpl] at h
        exact Res.noConfusion h
      | cons a args' =>
        cases a with
        | none =>
          simp only [requireImpl] at h
          exact Res.noConfusion h
        | some w =>
          cases w <;>
            first
            | (simp only [requireImpl] at h; exact Res.noConfusion h)
            | skip
          rename_i s
          simp only [requireImpl] at h
          split at h
          · simp only [Res.ok.injEq, Prod.mk.injEq] at h
            rw [← h.1]
          · exact ihRS _ _ _ _ _ _ _ h
    · -- requireSearch
      intro fs st name path st' v e h
      cases path with
      | nil =>
        simp only [requireSearch, Res.ok.injEq, Prod.mk.injEq] at h
        rw [← h.1]
      | cons member restPath =>
        cases member <;>
          first
          | (simp only [requireSearch] at h; exact Res.noConfusion h)
          | skip
        rename_i d
        simp only [requireSearch] at h
        split at h
        · exact ihRS _ _ _ _ _ _ _ h
        · exact ihRS _ _ _ _ _ _ _ h
        · rename_i parsed heq
          split at h
          · exact Res.noConfusion h
          · exact Res.noConfusion h
          · rename_i st2 v2 rerr heqR
            simp only [Res.ok.injEq, Prod.mk.injEq] at h
            rw [← h.1]
            have h1 := ihRT _ _ _ _ _ _ heqR
            exact h1
    · -- runTop
      intro fs st inp st' v e h
      cases inp with
      | error u =>
        simp only [runTop, Res.ok.injEq, Prod.mk.injEq] at h
        rw [← h.1]
      | ok stmts =>
        simp only [runTop] at h
        split at h
        · exact Res.noConfusion h
        · exact Res.noConfusion h
        · rename_i st2 rv2 re2 heq
          simp only [Res.ok.injEq, Prod.mk.injEq] at h
          rw [← h.1]
          have h1 := ihL _ _ _ _ _ _ _ _ _ _ heq
          rw [List.drop_zero] at h1
          show st2.stack.tail = st.stack
          rw [h1]
          rfl

lemma rescueLoop_all_skip : ∀ (R : List Node) (g : Nat) (fs : FS)
    (ctx : Option Value) (ev : Value) (ce : Option EvalError) (st : VMState),
    (∀ r ∈ R, NonMatchingClause ev r) →
    rescueLoop (R.length + g + 1) fs ctx R ev ce st = .ok (st, ce) := by
  intro R
  induction R with
  | nil => intro g fs ctx ev ce st _; simp only [List.length_nil, Nat.zero_add]; rfl
  | cons rc R ih =>
    intro g fs ctx ev ce st hall
    have hrc := hall rc (by simp)
    cases rc <;> simp only [NonMatchingClause] at hrc
    next cn body =>
      rw [show (Node.rescueNode cn body :: R : List Node).length + g + 1 =
            (R.length + g + 1) + 1 from by simp [List.length_cons]; omega]
      simp only [rescueLoop]
      rw [if_neg hrc]
      exact ih g fs ctx ev ce st (fun r hr => hall r (by simp [hr]))

lemma rescueLoop_skip_hit : ∀ (pre : List Node) (g : Nat) (fs : FS)
    (ctx : Option Value) (rb post : List Node) (ev : Value)
    (ce : Option EvalError) (st1 : VMState),
    (∀ r ∈ pre, NonMatchingClause ev r) →
    rescueLoop (pre.length + g + 1) fs ctx
        (pre ++ .rescueNode ev.toS rb :: post) ev ce st1 =
      match execLoop g fs ctx rb st1 none none 0 with
      | .panicked m => .panicked m
      | .fuelOut => .fuelOut
      | .ok (stx, _rbv, none) => .ok (stx, none)
      | .ok (stx, _rbv, some e2) => rescueLoop g fs ctx post ev (some e2) stx := by
  intro pre
  induction pre with
  | nil =>
    intro g fs ctx rb post ev ce st1 _
    simp only [List.length_nil, Nat.zero_add, List.nil_append, rescueLoop,
      if_true, eq_self_iff_true]
  | cons rc pre ih =>
    intro g fs ctx rb post ev ce st1 hall
    have hrc := hall rc (by simp)
    cases rc <;> simp only [NonMatchingClause] at hrc
    next cn body =>
      rw [show (Node.rescueNode cn body :: pre : List Node).length + g + 1 =
            (pre.length + g + 1) + 1 from by simp [List.length_cons]; omega]
      simp only [List.cons_append, rescueLoop]
      rw [if_neg hrc]
      exact ih g fs ctx rb post ev ce st1 (fun r hr => hall r (by simp [hr]))

lemma requireSearch_all_skip : ∀ (P : List Value) (g : Nat) (fs : FS)
    (st : VMState) (name : String),
    (∀ m ∈ P, SkippedDir fs name m) →
    requireSearch (P.length + g + 1) fs st name P =
      .ok (st, none, some (.rubyErr (.loadError
        ("LoadError: cannot load such file -- " ++ name)
        (renderStack st.stack)))) := by
  intro P
  induction P with
  | nil => intro g fs st name _; simp only [List.length_nil, Nat.zero_add]; rfl
  | cons m P ih =>
    intro g fs st name hall
    obtain ⟨d, hm, hdisj⟩ := hall m (by simp)
    subst hm
    rw [show (Value.str d :: P : List Value).length + g + 1 =
          (P.length + g + 1) + 1 from by simp [List.length_cons]; omega]
    simp only [requireSearch]
    rcases hdisj with hmiss | hread
    · rw [hmiss]
      exact ih g fs st name (fun x hx => hall x (by simp [hx]))
    · rw [hread]
      exact ih g fs st name (fun x hx => hall x (by simp [hx]))

lemma requireSearch_skip_hit : ∀ (pre : List Value) (g : Nat) (fs : FS)
    (st : VMState) (name d : String) (post : List Value)
    (parsed : Except Unit (List Node)),
    (∀ m ∈ pre, SkippedDir fs name m) →
    lookupAssoc fs (joinPath d (name ++ ".rb")) = some (.source parsed) →
    requireSearch (pre.length + g + 1) fs st name (pre ++ .str d :: post) =
      match runTop g fs { st with currentFilename := joinPath d (name ++ ".rb") }
          parsed with
      | .panicked m => .panicked m
      | .fuelOut => .fuelOut
      | .ok (st2, _nv, rerr) =>
        .ok ({ st2 with currentFilename := st.currentFilename },
          some (.boolVal true), rerr) := by
  intro pre
  induction pre with
  | nil =>
    intro g fs st name d post parsed _ hlook
    simp only [List.length_nil, Nat.zero_add, List.nil_append, requireSearch]
    rw [hlook]
  | cons m pre ih =>
    intro g fs st name d post parsed hall hlook
    obtain ⟨d0, hm, hdisj⟩ := hall m (by simp)
    subst hm
    rw [show (Value.str d0 :: pre : List Value).length + g + 1 =
          (pre.length + g + 1) + 1 from by simp [List.length_cons]; omega]
    simp only [List.cons_append, requireSearch]
    rcases hdisj with hmiss | hread
    · rw [hmiss]
      exact ih g fs st name d post parsed (fun x hx => hall x (by simp [hx])) hlook
    · rw [hread]
      exact ih g fs st name d post parsed (fun x hx => hall x (by simp [hx])) hlook

lemma exec_symbol_cases (fuel : Nat) (fs : FS) (ctx : Option Value)
    (st : VMState) (n : String) :
    executeWithContext (fuel + 2) fs [.symbol n] ctx st =
      match lookupAssoc st.symbols n with
      | some v => .ok (st, some v, none)
      | none => .ok ({ st with
            symbols := (n, .symbolVal n st.symCounter) :: st.symbols,
            symCounter := st.symCounter + 1 },
          some (.symbolVal n st.symCounter), none) := by
  cases h : lookupAssoc st.symbols n with
  | some v => simp only [executeWithContext, execLoop, h]; rfl
  | none => simp only [executeWithContext, execLoop, h]; rfl

lemma symbol_result_shape (fuel : Nat) (fs : FS) (ctx : Option Value)
    (st : VMState) (n : String) (st' : VMState) (rv : Option Value)
    (e : Option EvalError)
    (hwf : SymTableWF st)
    (h : executeWithContext (fuel + 2) fs [.symbol n] ctx st = .ok (st', rv, e)) :
    (∃ i, rv = some (.symbolVal n i)) ∧ SymTableWF st' ∧ e = none := by
  rw [exec_symbol_cases] at h
  cases hl : lookupAssoc st.symbols n with
  | some v =>
    rw [hl] at h
    simp only [Res.ok.injEq, Prod.mk.injEq] at h
    obtain ⟨h1, h2, h3⟩ := h
    obtain ⟨i, hi⟩ := hwf n v hl
    subst h1
    refine ⟨⟨i, by rw [← h2, hi]⟩, hwf, h3.symm⟩
  | none =>
    rw [hl] at h
    simp only [Res.ok.injEq, Prod.mk.injEq] at h
    obtain ⟨h1, h2, h3⟩ := h
    refine ⟨⟨st.symCounter, h2.symm⟩, ?_, h3.symm⟩
    intro m v hm
    rw [← h1] at hm
    simp only [lookupAssoc] at hm
    by_cases hnm : n = m
    · subst hnm
      rw [if_pos rfl] at hm
      exact ⟨st.symCounter, (Option.some.injEq _ _ ▸ hm).symm⟩
    · rw [if_neg hnm] at hm
      exact hwf m v hm

/-- Claim C1 (code evidence): the `ast.IfBlock` case computes
`truthy = (name == "nil")` for a bare-reference condition, so a condition
that is the bare reference `nil` selects the THEN branch, and any other
bare-reference condition selects the ELSE branch — the opposite of the
claimed policy (bare `nil` falsy, every non-boolean condition truthy).
Literal-boolean conditions do select the branch by their value. -/
theorem c1_if_bare_reference_inverted :
    executeWithContext 10 [] [.ifBlock (.bareReference "nil")
        [.simpleString "then-branch"] [.simpleString "else-branch"]]
      (some .mainObj) (newVM "t") = .ok (newVM "t", some (.str "then-branch"), none) ∧
    executeWithContext 10 [] [.ifBlock (.bareReference "x")
        [.simpleString "then-branch"] [.simpleString "else-branch"]]
      (some .mainObj) (newVM "t") = .ok (newVM "t", some (.str "else-branch"), none) ∧
    executeWithContext 10 [] [.ifBlock (.boolean false)
        [.simpleString "then-branch"] [.simpleString "else-branch"]]
      (some .mainObj) (newVM "t") = .ok (newVM "t", some (.str "else-branch"), none) ∧
    executeWithContext 10 [] [.ifBlock (.constantInt 0)
        [.simpleString "then-branch"] [.simpleString "else-branch"]]
      (some .mainObj) (newVM "t") = .ok (newVM "t", some (.str "then-branch"), none) :=
  ⟨rfl, rfl, rfl, rfl⟩

/-- Claim C2 (counterexample): in `begin <failing body> rescue <matching
class> "rescued" end`, the rescue body's result is the string "rescued",
no error propagates, but the begin node's value is nil (`none`), not the
rescue body's result — the code discards the rescue body's value. -/
theorem c2_counterexample :
    executeWithContext 10 [] [.beginBlock [.bareReference "missing"]
        [.rescueNode "NameError: missing" [.simpleString "rescued"]]]
      (some .mainObj) (newVM "t") = .ok (newVM "t", none, none) ∧
    executeWithContext 10 [] [.simpleString "rescued"] (some .mainObj) (newVM "t") =
      .ok (newVM "t", some (.str "rescued"), none) ∧
    (none : Option Value) ≠ some (.str "rescued") :=
  ⟨rfl, rfl, by simp⟩

/-- Claim C2 (amended): rescue clauses are tried in source order; a clause
whose declared class name equals the failing error's string form has its
body evaluated, and if that succeeds no further clauses are tried and no
error propagates, but the rescue body's value is discarded (the begin
node's value stays nil); if no clause matches, the original error
propagates as the begin node's result error. -/
theorem c2_begin_rescue_amended :
    (∀ (g : Nat) (fs : FS) (ctx : Option Value) (B pre post rb : List Node)
       (st st1 st2 : VMState) (vb vr : Option Value) (ev : Value),
      execLoop (pre.length + g + 1) fs ctx B st none none 0 =
        .ok (st1, vb, some (.rubyErr ev)) →
      (∀ r ∈ pre, NonMatchingClause ev r) →
      execLoop g fs ctx rb st1 none none 0 = .ok (st2, vr, none) →
      executeWithContext (pre.length + g + 2) fs
        [.beginBlock B (pre ++ .rescueNode ev.toS rb :: post)] ctx st =
        .ok (st2, none, none)) ∧
    (∀ (g : Nat) (fs : FS) (ctx : Option Value) (B R : List Node)
       (st st1 : VMState) (vb : Option Value) (ev : Value),
      execLoop (R.length + g + 1) fs ctx B st none none 0 =
        .ok (st1, vb, some (.rubyErr ev)) →
      (∀ r ∈ R, NonMatchingClause ev r) →
      executeWithContext (R.length + g + 2) fs [.beginBlock B R] ctx st =
        .ok (st1, none, some (.rubyErr ev))) := by
  constructor
  · intro g fs ctx B pre post rb st st1 st2 vb vr ev hbody hpre hrb
    have key : executeWithContext ((pre.length + g + 1) + 1) fs
        [.beginBlock B (pre ++ .rescueNode ev.toS rb :: post)] ctx st =
        .ok (st2, none, none) := by
      simp only [executeWithContext, execLoop, hbody]
      rw [rescueLoop_skip_hit pre g fs ctx rb post ev _ st1 hpre]
      rw [hrb]
      simp only [execLoop]
      rfl
    exact key
  · intro g fs ctx B R st st1 vb ev hbody hall
    have key : executeWithContext ((R.length + g + 1) + 1) fs
        [.beginBlock B R] ctx st = .ok (st1, none, some (.rubyErr ev)) := by
      simp only [executeWithContext, execLoop, hbody]
      rw [rescueLoop_all_skip R g fs ctx ev _ st1 hall]
      simp only [execLoop]
      rfl
    exact key

/-- Witness for C2 (amended): a begin whose body hits a missing bare name,
with one non-matching clause before the matching one, returns no value
and no error; with only a non-matching clause the NameError propagates. -/
theorem c2_witness :
    executeWithContext 6 [] [.beginBlock [.bareReference "missing"]
        [.rescueNode "Nope" [], .rescueNode "NameError: missing"
          [.simpleString "rescued"]]]
      (some .mainObj) (newVM "t") = .ok (newVM "t", none, none) ∧
    executeWithContext 5 [] [.beginBlock [.bareReference "missing"]
        [.rescueNode "Nope" []]]
      (some .mainObj) (newVM "t") =
      .ok (newVM "t", none, some (.rubyErr (.nameError "missing" "main"
        "Object" ""))) := by
  constructor
  · exact c2_begin_rescue_amended.1 3 [] (some .mainObj)
      [.bareReference "missing"] [.rescueNode "Nope" []] [] [.simpleString "rescued"]
      (newVM "t") (newVM "t") (newVM "t") none (some (.str "rescued"))
      (.nameError "missing" "main" "Object" "")
      rfl
      (by intro r hr; simp at hr; subst hr; simp [NonMatchingClause, Value.toS])
      rfl
  · exact c2_begin_rescue_amended.2 2 [] (some .mainObj)
      [.bareReference "missing"] [.rescueNode "Nope" []]
      (newVM "t") (newVM "t") none
      (.nameError "missing" "main" "Object" "")
      rfl
      (by intro r hr; simp at hr; subst hr; simp [NonMatchingClause, Value.toS])

/-- Claim C3 (counterexample): with load path `[/a, /b]` where `/a/foo.rb`
opens but fails to read and `/b/foo.rb` is readable, `require("foo")`
falls through to `/b` — the later directory IS tried after a file in an
earlier directory opened — and succeeds, evaluating `/b/foo.rb`'s
contents. -/
theorem c3_counterexample :
    lookupAssoc [("/a/foo.rb", FileEntry.readError),
        ("/b/foo.rb", FileEntry.source (.ok [.assignment (.bareReference "x")
          (.simpleString "loaded")]))] "/a/foo.rb" = some .readError ∧
    requireImpl 20 [("/a/foo.rb", FileEntry.readError),
        ("/b/foo.rb", FileEntry.source (.ok [.assignment (.bareReference "x")
          (.simpleString "loaded")]))]
      { newVM "t" with loadPath := [.str "/a", .str "/b"] }
      [some (.str "foo")] =
      .ok ({ newVM "t" with
          loadPath := [.str "/a", .str "/b"],
          objectSpace := ("x", some (.str "loaded")) ::
            (newVM "t").objectSpace },
        some (.boolVal true), none) :=
  ⟨rfl, rfl⟩

/-- Claim C3 (amended): the load-path search stops at the first directory
whose joined `<dir>/<name>.rb` both opens and reads successfully — a
directory whose file opens but fails to read is skipped like one that
fails to open, and later directories are tried; if no directory yields an
openable and readable file, require fails with a LoadError naming the
requested unit. -/
theorem c3_require_search_amended :
    (∀ (g : Nat) (fs : FS) (st : VMState) (name d : String)
       (pre post : List Value) (parsed : Except Unit (List Node))
       (st2 : VMState) (v2 : Option Value) (rerr : Option EvalError)
       (argsRest : List (Option Value)),
      name ≠ "rubygems" →
      (∀ m ∈ pre, SkippedDir fs name m) →
      lookupAssoc fs (joinPath d (name ++ ".rb")) = some (.source parsed) →
      st.loadPath = pre ++ .str d :: post →
      runTop g fs { st with currentFilename := joinPath d (name ++ ".rb") }
        parsed = .ok (st2, v2, rerr) →
      requireImpl (pre.length + g + 2) fs st (some (.str name) :: argsRest) =
        .ok ({ st2 with currentFilename := st.currentFilename },
          some (.boolVal true), rerr)) ∧
    (∀ (g : Nat) (fs : FS) (st : VMState) (name : String)
       (argsRest : List (Option Value)),
      name ≠ "rubygems" →
      (∀ m ∈ st.loadPath, SkippedDir fs name m) →
      requireImpl (st.loadPath.length + g + 2) fs st
        (some (.str name) :: argsRest) =
        .ok (st, none, some (.rubyErr (.loadError
          ("LoadError: cannot load such file -- " ++ name)
          (renderStack st.stack))))) := by
  constructor
  · intro g fs st name d pre post parsed st2 v2 rerr argsRest hname hpre hlook hlp hrun
    have key : requireImpl ((pre.length + g + 1) + 1) fs st
        (some (.str name) :: argsRest) =
        .ok ({ st2 with currentFilename := st.currentFilename },
          some (.boolVal true), rerr) := by
      simp only [requireImpl]
      rw [if_neg hname, hlp]
      rw [requireSearch_skip_hit pre g fs st name d post parsed hpre hlook]
      rw [hrun]
    exact key
  · intro g fs st name argsRest hname hall
    have key : requireImpl ((st.loadPath.length + g + 1) + 1) fs st
        (some (.str name) :: argsRest) =
        .ok (st, none, some (.rubyErr (.loadError
          ("LoadError: cannot load such file -- " ++ name)
          (renderStack st.stack)))) := by
      simp only [requireImpl]
      rw [if_neg hname]
      exact requireSearch_all_skip st.loadPath g fs st name hall
    exact key

/-- Witness for C3 (amended): the first directory's file opens but fails
to read, the second is readable, so `/b` wins; and a one-directory path
whose file fails to read yields a LoadError. -/
theorem c3_witness :
    requireImpl 5 [("/a/foo.rb", FileEntry.readError),
        ("/b/foo.rb", FileEntry.source (.ok []))]
      { newVM "t" with loadPath := [.str "/a", .str "/b"] }
      [some (.str "foo")] =
      .ok ({ newVM "t" with loadPath := [.str "/a", .str "/b"] },
        some (.boolVal true), none) ∧
    requireImpl 3 [("/a/foo.rb", FileEntry.readError)]
      { newVM "t" with loadPath := [.str "/a"] }
      [some (.str "foo")] =
      .ok ({ newVM "t" with loadPath := [.str "/a"] }, none,
        some (.rubyErr (.loadError "LoadError: cannot load such file -- foo"
          ""))) := by
  constructor
  · exact c3_require_search_amended.1 2
      [("/a/foo.rb", FileEntry.readError), ("/b/foo.rb", FileEntry.source (.ok []))]
      { newVM "t" with loadPath := [.str "/a", .str "/b"] }
      "foo" "/b" [.str "/a"] [] (.ok []) _ _ _ [] (by simp)
      (by intro m hm
          simp only [List.mem_singleton] at hm
          subst hm
          exact ⟨"/a", rfl, Or.inr rfl⟩)
      rfl rfl rfl
  · exact c3_require_search_amended.2 0
      [("/a/foo.rb", FileEntry.readError)]
      { newVM "t" with loadPath := [.str "/a"] }
      "foo" [] (by simp)
      (by intro m hm
          simp only [List.mem_singleton] at hm
          subst hm
          exact ⟨"/a", rfl, Or.inr rfl⟩)

/-- Claim C4 (counterexample): after a `to_s()` invocation returns, its
frame is still on the call stack while the next statement of the same
sequence runs: the NameError produced there carries backtrace
"to_s,main", not the "main" it would carry had the frame been popped when
the invocation returned. -/
theorem c4_counterexample :
    executeWithContext 9 [] [.callExpression none "to_s" [], .bareReference "missing"]
      (some .mainObj) { newVM "t" with stack := ["main"] } =
      .ok ({ newVM "t" with stack := ["main"] }, some (.str "main"),
        some (.rubyErr (.nameError "missing" "main" "Object" "to_s,main"))) ∧
    renderStack ["main"] = "main" ∧
    "to_s,main" ≠ "main" := by
  refine ⟨rfl, rfl, by simp⟩

/-- Claim C4 (amended): each method invocation pushes exactly one frame,
named after the resolved method, before the method executes; the pop is
deferred to the exit of the enclosing evaluator activation over the
statement sequence (on every exit path, including error exits), so every
`executeWithContext` activation and every top-level `Run` restores the
call stack to its entry state on any `.ok` return. -/
theorem c4_stack_frames_amended :
    (∀ (fuel : Nat) (fs : FS) (cv : Value) (f : String)
       (argNodes rest : List Node) (st : VMState) (rv : Option Value)
       (re : Option EvalError) (p : Nat) (mname : String) (st2 : VMState)
       (argVals : List (Option Value)) (st4 : VMState) (mrv : Option Value)
       (merr : Option EvalError),
      methodLookup cv f = some mname →
      evalArgs fuel fs (some cv) argNodes st [] = .ok (.done st2 argVals) →
      execMethod fuel fs cv mname argVals
        { st2 with stack := mname :: st2.stack } = .ok (st4, mrv, merr) →
      execLoop (fuel + 2) fs (some cv) (.callExpression none f argNodes :: rest)
          st rv re p =
        match merr with
        | some e => .ok (popFrames st4 (p + 1), mrv, some e)
        | none => execLoop fuel fs (some cv) rest st4 mrv none (p + 1)) ∧
    (∀ (fuel : Nat) (fs : FS) (stmts : List Node) (ctx : Option Value)
       (st st' : VMState) (v : Option Value) (e : Option EvalError),
      executeWithContext fuel fs stmts ctx st = .ok (st', v, e) →
        st'.stack = st.stack) ∧
    (∀ (fuel : Nat) (fs : FS) (st : VMState) (inp : Except Unit (List Node))
       (st' : VMState) (v : Option Value) (e : Option EvalError),
      runTop fuel fs st inp = .ok (st', v, e) → st'.stack = st.stack) := by
  refine ⟨?_, ?_, ?_⟩
  · intro fuel fs cv f argNodes rest st rv re p mname st2 argVals st4 mrv merr
      hml hargs hexec
    cases merr with
    | some e => simp only [execLoop, finishCall, hml, hargs, hexec]
    | none => simp only [execLoop, finishCall, hml, hargs, hexec]
  · intro fuel fs stmts ctx st st' v e h
    have h1 := (stackOK fuel).1 fs ctx stmts st none none 0 st' v e h
    rw [List.drop_zero] at h1
    exact h1
  · intro fuel fs st inp st' v e h
    exact (stackOK fuel).2.2.2.2.2.2.2.2 fs st inp st' v e h

/-- Witness for C4 (amended): a concrete `to_s()` call pushes the "to_s"
frame for the method's execution; a symbol evaluation's result state has
the entry stack; a top-level run over one string statement restores the
stack. -/
theorem c4_witness :
    (execLoop 3 [] (some .mainObj) [.callExpression none "to_s" []]
        (newVM "w") none none 0 =
      execLoop 1 [] (some .mainObj) []
        { newVM "w" with stack := ["to_s"] } (some (.str "main")) none 1) ∧
    ({ newVM "w" with
        symbols := [("a", Value.symbolVal "a" 0)], symCounter := 1 } :
        VMState).stack = (newVM "w").stack ∧
    ({ newVM "w" with stack := ["outer"] } : VMState).stack =
      ({ newVM "w" with stack := ["outer"] } : VMState).stack := by
  refine ⟨?_, ?_, ?_⟩
  · exact c4_stack_frames_amended.1 1 [] Value.mainObj "to_s" [] []
      (newVM "w") none none 0 "to_s" (newVM "w") []
      { newVM "w" with stack := ["to_s"] } (some (.str "main")) none
      rfl rfl rfl
  · exact c4_stack_frames_amended.2.1 2 [] [.symbol "a"] none (newVM "w")
      { newVM "w" with symbols := [("a", Value.symbolVal "a" 0)], symCounter := 1 }
      (some (.symbolVal "a" 0)) none rfl
  · exact c4_stack_frames_amended.2.2 5 [] { newVM "w" with stack := ["outer"] }
      (.ok [.simpleString "x"]) { newVM "w" with stack := ["outer"] }
      (some (.str "x")) none rfl

/-- Claim C5: reading a global that was never set yields a nil result and
no error, while reading a bare name absent from the object space fails
with a NameError carrying the name, the context's string form, the
context's class name, and the current backtrace. -/
theorem c5_unset_global_nil_unset_bare_name_error :
    (∀ (fuel : Nat) (fs : FS) (ctx : Option Value) (st : VMState) (name : String),
      lookupAssoc st.globals name = none →
      executeWithContext (fuel + 2) fs [.globalVariable name] ctx st =
        .ok (st, none, none)) ∧
    (∀ (fuel : Nat) (fs : FS) (c : Value) (st : VMState) (name : String),
      lookupAssoc st.objectSpace name = none →
      executeWithContext (fuel + 2) fs [.bareReference name] (some c) st =
        .ok (st, none, some (.rubyErr (.nameError name c.toS c.classNameOf
          (renderStack st.stack))))) := by
  constructor
  · intro fuel fs ctx st name h
    simp only [executeWithContext, execLoop, h, Option.join]
    rfl
  · intro fuel fs c st name h
    simp only [executeWithContext, execLoop, h]
    rfl

/-- Witness for C5 at a concrete unset global and bare name in the fresh
VM state. -/
theorem c5_witness :
    executeWithContext 3 [] [.globalVariable "undefined_global"]
      (some .mainObj) (newVM "w") = .ok (newVM "w", none, none) ∧
    executeWithContext 3 [] [.bareReference "undefined_name"]
      (some .mainObj) (newVM "w") =
      .ok (newVM "w", none, some (.rubyErr (.nameError "undefined_name"
        "main" "Object" ""))) := by
  constructor
  · exact c5_unset_global_nil_unset_bare_name_error.1 1 [] (some .mainObj)
      (newVM "w") "undefined_global" rfl
  · exact c5_unset_global_nil_unset_bare_name_error.2 1 [] Value.mainObj
      (newVM "w") "undefined_name" rfl

/-- Claim C6: the first evaluation of a symbol literal constructs a Symbol
carrying a fresh identity and caches it; a later evaluation of the same
name returns the identical cached instance; and two evaluations of
differently-spelled symbol literals (in a well-formed interning table)
never yield the identical instance. -/
theorem c6_symbol_interning :
    (∀ (fuel : Nat) (fs : FS) (ctx : Option Value) (st : VMState) (n : String),
      lookupAssoc st.symbols n = none →
      executeWithContext (fuel + 2) fs [.symbol n] ctx st =
        .ok ({ st with
            symbols := (n, .symbolVal n st.symCounter) :: st.symbols,
            symCounter := st.symCounter + 1 },
          some (.symbolVal n st.symCounter), none)) ∧
    (∀ (fuel : Nat) (fs : FS) (ctx : Option Value) (st : VMState)
       (n : String) (v : Value),
      lookupAssoc st.symbols n = some v →
      executeWithContext (fuel + 2) fs [.symbol n] ctx st = .ok (st, some v, none)) ∧
    (∀ (f₁ f₂ : Nat) (fs₁ fs₂ : FS) (ctx₁ ctx₂ : Option Value)
       (st st1 st2 : VMState) (n₁ n₂ : String) (v₁ v₂ : Value)
       (e₁ e₂ : Option EvalError),
      SymTableWF st → n₁ ≠ n₂ →
      executeWithContext (f₁ + 2) fs₁ [.symbol n₁] ctx₁ st = .ok (st1, some v₁, e₁) →
      executeWithContext (f₂ + 2) fs₂ [.symbol n₂] ctx₂ st1 = .ok (st2, some v₂, e₂) →
      v₁ ≠ v₂) := by
  refine ⟨?_, ?_, ?_⟩
  · intro fuel fs ctx st n h
    rw [exec_symbol_cases, h]
  · intro fuel fs ctx st n v h
    rw [exec_symbol_cases, h]
  · intro f₁ f₂ fs₁ fs₂ ctx₁ ctx₂ st st1 st2 n₁ n₂ v₁ v₂ e₁ e₂ hwf hne h₁ h₂
    obtain ⟨⟨i₁, hv₁⟩, hwf1, -⟩ := symbol_result_shape _ _ _ _ _ _ _ _ hwf h₁
    obtain ⟨⟨i₂, hv₂⟩, -, -⟩ := symbol_result_shape _ _ _ _ _ _ _ _ hwf1 h₂
    rw [Option.some.injEq] at hv₁ hv₂
    subst hv₁
    subst hv₂
    intro hcontra
    rw [Value.symbolVal.injEq] at hcontra
    exact hne hcontra.1

/-- Witness for C6: interning `:a` then `:b` in the fresh VM state yields
the cached instances and distinct values. -/
theorem c6_witness :
    executeWithContext 2 [] [.symbol "a"] (some .mainObj) (newVM "w") =
      .ok ({ newVM "w" with symbols := [("a", .symbolVal "a" 0)], symCounter := 1 },
        some (.symbolVal "a" 0), none) ∧
    executeWithContext 2 []
        [.symbol "a"] (some .mainObj)
        { newVM "w" with symbols := [("a", .symbolVal "a" 0)], symCounter := 1 } =
      .ok ({ newVM "w" with symbols := [("a", .symbolVal "a" 0)], symCounter := 1 },
        some (.symbolVal "a" 0), none) ∧
    Value.symbolVal "a" 0 ≠ Value.symbolVal "b" 1 := by
  refine ⟨?_, ?_, ?_⟩
  · exact c6_symbol_interning.1 0 [] (some .mainObj) (newVM "w") "a" rfl
  · exact c6_symbol_interning.2.1 0 [] (some .mainObj)
      { newVM "w" with symbols := [("a", .symbolVal "a" 0)], symCounter := 1 }
      "a" (.symbolVal "a" 0) rfl
  · exact c6_symbol_interning.2.2 0 0 [] [] (some .mainObj) (some .mainObj)
      (newVM "w") _ _ "a" "b" _ _ _ _
      (fun _ _ h => Option.noConfusion h) (by simp)
      rfl rfl

/-- Claim C7: when require finds and reads a unit, the current unit name
is set to the resolved file's path for the nested top-level run (a
file-name constant assigned during the nested run observes that path),
and the previous unit name is restored on every outcome, including when
the nested run fails. -/
theorem c7_require_filename_set_and_restored :
    (∀ (g : Nat) (fs : FS) (st : VMState) (name d : String)
       (pre post : List Value) (parsed : Except Unit (List Node))
       (st2 : VMState) (v2 : Option Value) (rerr : Option EvalError)
       (argsRest : List (Option Value)),
      name ≠ "rubygems" →
      (∀ m ∈ pre, SkippedDir fs name m) →
      lookupAssoc fs (joinPath d (name ++ ".rb")) = some (.source parsed) →
      st.loadPath = pre ++ .str d :: post →
      runTop g fs { st with currentFilename := joinPath d (name ++ ".rb") }
        parsed = .ok (st2, v2, rerr) →
      ∃ stR, requireImpl (pre.length + g + 2) fs st
          (some (.str name) :: argsRest) =
            .ok (stR, some (.boolVal true), rerr) ∧
        stR.currentFilename = st.currentFilename) ∧
    (∀ (g : Nat) (fs : FS) (st : VMState) (name d : String)
       (pre post : List Value) (argsRest : List (Option Value)),
      name ≠ "rubygems" →
      (∀ m ∈ pre, SkippedDir fs name m) →
      lookupAssoc fs (joinPath d (name ++ ".rb")) =
        some (.source (.ok [.assignment (.bareReference "seen") .fileNameConst])) →
      st.loadPath = pre ++ .str d :: post →
      requireImpl (pre.length + (g + 5) + 2) fs st
        (some (.str name) :: argsRest) =
        .ok ({ st with
            objectSpace := ("seen", some (.str (joinPath d (name ++ ".rb")))) ::
              st.objectSpace },
          some (.boolVal true), none)) := by
  constructor
  · intro g fs st name d pre post parsed st2 v2 rerr argsRest hname hpre hlook hlp hrun
    refine ⟨{ st2 with currentFilename := st.currentFilename }, ?_, rfl⟩
    have key : requireImpl ((pre.length + g + 1) + 1) fs st
        (some (.str name) :: argsRest) =
        .ok ({ st2 with currentFilename := st.currentFilename },
          some (.boolVal true), rerr) := by
      simp only [requireImpl]
      rw [if_neg hname, hlp]
      rw [requireSearch_skip_hit pre g fs st name d post parsed hpre hlook]
      rw [hrun]
    exact key
  · intro g fs st name d pre post argsRest hname hpre hlook hlp
    have key : requireImpl (((pre.length + (g + 5)) + 1) + 1) fs st
        (some (.str name) :: argsRest) =
        .ok ({ st with
            objectSpace := ("seen", some (.str (joinPath d (name ++ ".rb")))) ::
              st.objectSpace },
          some (.boolVal true), none) := by
      simp only [requireImpl]
      rw [if_neg hname]
      nth_rewrite 1 [hlp]
      rw [requireSearch_skip_hit pre (g + 5) fs st name d post _ hpre hlook]
      rfl
    exact key

/-- Witness for C7: a load path whose first directory misses, second has
the unit; the nested run records the resolved path under `seen`, the unit
name is restored afterwards; and restoration also holds when the nested
run fails with a parse error. -/
theorem c7_witness :
    requireImpl 9 [("/b/foo.rb", FileEntry.source (.ok [.assignment
        (.bareReference "seen") .fileNameConst]))]
      { newVM "orig.rb" with loadPath := [.str "/a", .str "/b"] }
      [some (.str "foo")] =
      .ok ({ newVM "orig.rb" with
          loadPath := [.str "/a", .str "/b"],
          objectSpace := ("seen", some (.str "/b/foo.rb")) ::
            (newVM "orig.rb").objectSpace },
        some (.boolVal true), none) ∧
    (∃ stR, requireImpl 4 [("/b/foo.rb", FileEntry.source (.error ()))]
        { newVM "orig.rb" with loadPath := [.str "/a", .str "/b"] }
        [some (.str "foo")] =
          .ok (stR, some (.boolVal true), some (.parseError "/b/foo.rb")) ∧
      stR.currentFilename = "orig.rb") := by
  constructor
  · exact c7_require_filename_set_and_restored.2 0
      [("/b/foo.rb", FileEntry.source (.ok [.assignment
        (.bareReference "seen") .fileNameConst]))]
      { newVM "orig.rb" with loadPath := [.str "/a", .str "/b"] }
      "foo" "/b" [.str "/a"] [] [] (by simp)
      (by intro m hm
          simp only [List.mem_singleton] at hm
          subst hm
          exact ⟨"/a", rfl, Or.inl rfl⟩)
      rfl rfl
  · exact c7_require_filename_set_and_restored.1 1
      [("/b/foo.rb", FileEntry.source (.error ()))]
      { newVM "orig.rb" with loadPath := [.str "/a", .str "/b"] }
      "foo" "/b" [.str "/a"] [] (.error ()) _ _ _ [] (by simp)
      (by intro m hm
          simp only [List.mem_singleton] at hm
          subst hm
          exact ⟨"/a", rfl, Or.inl rfl⟩)
      rfl rfl rfl

/-- Claim C8: `require("rubygems")` returns the false value with no error,
for every file system and every VM state (in particular every load path),
and leaves the state unchanged — no load-path search and no file-system
access; the same holds through a full `require` call expression. -/
theorem c8_require_rubygems_noop :
    (∀ (fuel : Nat) (fs : FS) (st : VMState) (restArgs : List (Option Value)),
      requireImpl (fuel + 1) fs st (some (.str "rubygems") :: restArgs) =
        .ok (st, some (.boolVal false), none)) ∧
    (∀ (fuel : Nat) (fs fs' : FS) (st : VMState) (restArgs : List (Option Value)),
      requireImpl (fuel + 1) fs st (some (.str "rubygems") :: restArgs) =
        requireImpl (fuel + 1) fs' st (some (.str "rubygems") :: restArgs)) ∧
    (∀ (fuel : Nat) (fs : FS) (st : VMState),
      executeWithContext (fuel + 5) fs
        [.callExpression none "require" [.simpleString "rubygems"]]
        (some .mainObj) st = .ok (st, some (.boolVal false), none)) :=
  ⟨fun _ _ _ _ => rfl, fun _ _ _ _ _ => rfl, fun _ _ _ => rfl⟩

/-- Claim C9: a NameError from a bare-reference statement does not stop
the sequence: evaluating the remaining statements continues with the
error recorded, and a later literal statement's value is paired with the
earlier error in the sequence's result. -/
theorem c9_name_error_does_not_stop_sequence :
    (∀ (fuel : Nat) (fs : FS) (rest : List Node) (st : VMState)
       (rv : Option Value) (re : Option EvalError) (pushed : Nat)
       (n : String) (c : Value),
      lookupAssoc st.objectSpace n = none →
      execLoop (fuel + 1) fs (some c) (.bareReference n :: rest) st rv re pushed =
        execLoop fuel fs (some c) rest st rv
          (some (.rubyErr (.nameError n c.toS c.classNameOf
            (renderStack st.stack)))) pushed) ∧
    (∀ (fuel : Nat) (fs : FS) (st : VMState) (n s : String) (c : Value),
      lookupAssoc st.objectSpace n = none →
      executeWithContext (fuel + 3) fs [.bareReference n, .simpleString s]
        (some c) st =
        .ok (st, some (.str s), some (.rubyErr (.nameError n c.toS c.classNameOf
          (renderStack st.stack))))) := by
  constructor
  · intro fuel fs rest st rv re pushed n c h
    simp only [execLoop, h]
  · intro fuel fs st n s c h
    simp only [executeWithContext, execLoop, h]
    rfl

/-- Witness for C9: a missing bare name followed by a string literal in
the fresh VM state yields the string as value and the NameError as
error. -/
theorem c9_witness :
    executeWithContext 4 [] [.bareReference "missing", .simpleString "later"]
      (some .mainObj) (newVM "w") =
      .ok (newVM "w", some (.str "later"),
        some (.rubyErr (.nameError "missing" "main" "Object" ""))) :=
  c9_name_error_does_not_stop_sequence.2 1 [] (newVM "w") "missing" "later"
    Value.mainObj rfl

/-- Claim C10: `require` invoked with zero arguments, or with a first
argument that is not a string value, faults (a Go panic from `args[0]`
indexing or the `*StringValue` type assertion) rather than producing a
language-level error value; the same holds through a full call
expression with no arguments. -/
theorem c10_require_bad_args_panic :
    (∀ (fuel : Nat) (fs : FS) (st : VMState),
      requireImpl (fuel + 1) fs st [] = .panicked "index out of range") ∧
    (∀ (fuel : Nat) (fs : FS) (st : VMState) (i : Int)
       (restArgs : List (Option Value)),
      requireImpl (fuel + 1) fs st (some (.intVal i) :: restArgs) =
        .panicked "interface conversion") ∧
    (∀ (fuel : Nat) (fs : FS) (st : VMState) (restArgs : List (Option Value)),
      requireImpl (fuel + 1) fs st (none :: restArgs) =
        .panicked "interface conversion") ∧
    (∀ (fuel : Nat) (fs : FS) (st : VMState),
      executeWithContext (fuel + 4) fs [.callExpression none "require" []]
        (some .mainObj) st = .panicked "index out of range") :=
  ⟨fun _ _ _ => rfl, fun _ _ _ _ _ => rfl, fun _ _ _ _ => rfl, fun _ _ _ => rfl⟩
